import Mathlib

/-!
Verification of the resource/version model of
`localstack/services/awslambda/invocation/lambda_models.py`.

The Python module is shallowly embedded: frozen dataclasses become Lean
structures, disk state becomes an explicit `Disk` value threaded through the
operations, calls to the S3 collaborator become `S3Request` values collected in
a trace, and exceptions become `Except`.  Fallible collaborator behaviour
(download success, rmtree success, remote-delete success) is passed in as
explicit boolean parameters.
-/

namespace LambdaModels

/-- Decimal digit character with value `n` (for `n < 10`), i.e. the character
with code point `48 + n`.  Used to embed Python `str(int)`. -/
def digitChar (n : Nat) : Char := Char.ofNat (48 + n)

/-- Fuel-indexed decimal rendering of a natural number, most significant digit
first.  `fuel > n` is always enough fuel. -/
def natReprAux : Nat → Nat → List Char
  | 0, _ => []
  | fuel + 1, n =>
    if n < 10 then [digitChar n]
    else natReprAux fuel (n / 10) ++ [digitChar (n % 10)]

/-- Embedding of Python `str` applied to a nonnegative `int`: the usual decimal
representation. -/
def natRepr (n : Nat) : String := ⟨natReprAux (n + 1) n⟩

/-- Decode a list of decimal digit characters back into a natural number. -/
def decodeDigits (cs : List Char) : Nat :=
  cs.foldl (fun acc c => acc * 10 + (c.toNat - 48)) 0

/-- Embedding of `S3Code` (a frozen dataclass; the `threading.RLock` field is
modelled separately, in the concurrent semantics of
`prepare_for_execution`). -/
structure S3Code where
  id : String
  s3_bucket : String
  s3_key : String
  s3_object_version : Option String
  code_sha256 : String
  code_size : Nat
deriving DecidableEq, Repr

/-- Embedding of `tempfile.gettempdir()`: the base temporary directory,
the constant `/tmp` documented in the source docstring. -/
def gettempdir : String := "/tmp"

/-- Embedding of `S3Code.get_unzipped_code_location`:
`f"{tempfile.gettempdir()}/lambda/{self.s3_bucket}/{self.id}/code"`. -/
def get_unzipped_code_location (c : S3Code) : String :=
  gettempdir ++ "/lambda/" ++ c.s3_bucket ++ "/" ++ c.id ++ "/code"

/-- Embedding of `Path.parent` of the unzipped code location: the artifact-id directory
(`.parent` strips the trailing `/code` component). -/
def parentDir (c : S3Code) : String :=
  gettempdir ++ "/lambda/" ++ c.s3_bucket ++ "/" ++ c.id

/-- Python truthiness of the optional `s3_object_version` field:
`None` and the empty string are falsy. -/
def truthyVersion : Option String → Option String
  | none => none
  | some v => if v = "" then none else some v

/-- A request issued to the S3 collaborator, recording the region the client
was constructed with. -/
inductive S3Request where
  | download (region bucket key : String) (versionId : Option String)
  | presign (region bucket key : String) (versionId : Option String)
  | delete (region bucket key : String) (versionId : Option String)
deriving DecidableEq, Repr

/-- The region an `S3Request` was issued against. -/
def S3Request.region : S3Request → String
  | .download r _ _ _ => r
  | .presign r _ _ _ => r
  | .delete r _ _ _ => r

/-- Embedding of `S3Code._download_archive_to_file`: the S3 request it issues
(`connect_to_service("s3", region_name="us-east-1")` then `download_fileobj`
with `ExtraArgs` containing `VersionId` only when truthy). -/
def download_archive_to_file (c : S3Code) : S3Request :=
  .download "us-east-1" c.s3_bucket c.s3_key (truthyVersion c.s3_object_version)

/-- Embedding of `S3Code.generate_presigned_url`: the S3 request it issues
(`generate_presigned_url("get_object", ...)` against a client constructed with
`region_name="us-east-1"`; `VersionId` added only when truthy). -/
def generate_presigned_url (c : S3Code) : S3Request :=
  .presign "us-east-1" c.s3_bucket c.s3_key (truthyVersion c.s3_object_version)

/-- Local filesystem state: the directory paths that currently exist. -/
structure Disk where
  dirs : List String
deriving DecidableEq, Repr

/-- Does directory `p` exist on disk `d`?  Embedding of `Path.exists()`. -/
def dirExists (d : Disk) (p : String) : Bool := d.dirs.contains p

/-- Embedding of `target_path.mkdir(parents=True, exist_ok=True)`: creates the
target directory and its parent (the artifact-id directory). -/
def mkdirParents (d : Disk) (c : S3Code) : Disk :=
  ⟨get_unzipped_code_location c :: parentDir c :: d.dirs⟩

/-- Embedding of `shutil.rmtree p`: removes `p` and everything below it. -/
def rmtree (d : Disk) (p : String) : Disk :=
  ⟨d.dirs.filter (fun q => !(p.data.isPrefixOf q.data))⟩

/-- Python exceptions that the embedded operations can raise. -/
inductive PyError where
  | clientError
  | osError
deriving DecidableEq, Repr

/-- Embedding of `S3Code.prepare_for_execution` executed sequentially (the
`_disk_lock` is held for the whole body; an interleaved semantics is given
separately below).  `remoteOk` says whether the download and unzip succeed.
Returns the Python result, the final disk, and the issued S3 requests.
Faithful to the source order: the existence check, then
`mkdir(parents=True, exist_ok=True)`, then the download into a temporary file
and the unzip into the target directory. -/
def prepare_for_execution (remoteOk : Bool) (c : S3Code) (d : Disk) :
    Except PyError Unit × Disk × List S3Request :=
  let target := get_unzipped_code_location c
  if dirExists d target then (.ok (), d, [])
  else
    let d1 := mkdirParents d c
    if remoteOk then (.ok (), d1, [download_archive_to_file c])
    else (.error .clientError, d1, [download_archive_to_file c])

/-- Embedding of `S3Code.destroy_cached`: removes the tree rooted at the
parent of the unzipped code location if it exists; an `OSError` from
`shutil.rmtree` (modelled by `rmtreeOk = false`) is logged and swallowed. -/
def destroy_cached (rmtreeOk : Bool) (c : S3Code) (d : Disk) : Disk :=
  let code_path := parentDir c
  if dirExists d code_path then
    if rmtreeOk then rmtree d code_path else d
  else d

/-- Embedding of `S3Code.destroy`: first `destroy_cached`, then
`delete_object` against a client constructed with `region_name="us-east-1"`;
a `ClientError` from the deletion (modelled by `remoteDeleteOk = false`) is
logged and swallowed, so the operation always returns normally. -/
def destroy (rmtreeOk remoteDeleteOk : Bool) (c : S3Code) (d : Disk) :
    Except PyError Unit × Disk × List S3Request :=
  let d1 := destroy_cached rmtreeOk c d
  (.ok (), d1, [.delete "us-east-1" c.s3_bucket c.s3_key (truthyVersion c.s3_object_version)])

/-- C1: if the target directory already exists, `prepare_for_execution`
returns immediately: unchanged disk and no S3 traffic; and after any
successful call the target directory exists, so every repeated call is a
no-op that issues no download (idempotence).  The unzipped-code path itself is
`get_unzipped_code_location c`, a function of the artifact alone, hence the
same across calls. -/
theorem prepare_for_execution_idempotent (c : S3Code) (remoteOk remoteOk' : Bool)
    (d d1 : Disk) (ops : List S3Request)
    (h : prepare_for_execution remoteOk c d = (.ok (), d1, ops)) :
    prepare_for_execution remoteOk' c d1 = (.ok (), d1, []) ∧
    (dirExists d (get_unzipped_code_location c) = true → d1 = d ∧ ops = []) := by
  unfold prepare_for_execution at h ⊢
  by_cases hex : dirExists d (get_unzipped_code_location c) = true
  · simp [hex] at h
    obtain ⟨hd, hops⟩ := h
    subst hd
    subst hops
    simp [hex]
  · simp [Bool.not_eq_true] at hex
    cases remoteOk with
    | false => simp [hex] at h
    | true =>
      simp [hex] at h
      have hd1 : dirExists d1 (get_unzipped_code_location c) = true := by
        rw [← h.1]
        simp [mkdirParents, dirExists, List.contains]
      simp [hd1, hex]

/-- Concrete artifact used by witnesses. -/
def code0 : S3Code :=
  { id := "a1", s3_bucket := "bkt", s3_key := "k.zip", s3_object_version := none,
    code_sha256 := "sha", code_size := 4 }

/-- Witness for C1 at a concrete input: materialize `code0` on an empty disk,
then call again. -/
theorem prepare_for_execution_idempotent_witness :
    prepare_for_execution true code0
        (mkdirParents ⟨[]⟩ code0) = (.ok (), mkdirParents ⟨[]⟩ code0, []) := by
  have h := prepare_for_execution_idempotent code0 true true ⟨[]⟩
      (mkdirParents ⟨[]⟩ code0) [download_archive_to_file code0] rfl
  exact h.1

/-- Membership form of `dirExists`. -/
theorem dirExists_iff_mem (d : Disk) (p : String) :
    dirExists d p = true ↔ p ∈ d.dirs := by
  simp [dirExists]

/-- After removing the tree rooted at `p`, no path extending `p` exists. -/
theorem dirExists_rmtree_of_isPrefixOf (d : Disk) (p q : String)
    (h : p.data.isPrefixOf q.data = true) :
    dirExists (rmtree d p) q = false := by
  rw [Bool.eq_false_iff]
  intro hmem
  rw [dirExists_iff_mem] at hmem
  have := (List.mem_filter.mp hmem).2
  simp [h] at this

/-- The string `parentDir c` is a character-list prefix of the unzipped code
location. -/
theorem parentDir_isPrefixOf_location (c : S3Code) :
    (parentDir c).data.isPrefixOf (get_unzipped_code_location c).data = true := by
  have h : get_unzipped_code_location c = parentDir c ++ "/code" := by
    simp [get_unzipped_code_location, parentDir, String.append_assoc]
  rw [h, String.data_append]
  exact List.isPrefixOf_iff_prefix.mpr (List.prefix_append _ _)

/-- A string is a prefix of itself. -/
theorem isPrefixOf_self (p : String) : p.data.isPrefixOf p.data = true :=
  List.isPrefixOf_iff_prefix.mpr (List.prefix_refl _)

/-- A disk is well formed for an artifact when the unzipped code location can
only exist below an existing artifact directory (true of any real filesystem,
where a child directory implies its parent). -/
def WellFormedDisk (c : S3Code) (d : Disk) : Prop :=
  dirExists d (get_unzipped_code_location c) = true → dirExists d (parentDir c) = true

/-- C6: `destroy` always completes without raising, even when the remote
deletion fails (`remoteDeleteOk = false`): the `ClientError` is swallowed.
The local cache is removed first — the resulting disk is exactly
`destroy_cached` applied to the input disk, so the eviction happens before the
remote `delete_object` request (which never touches the disk) — and when
`shutil.rmtree` does not itself error, neither the artifact directory nor the
unzipped code location survives. -/
theorem destroy_swallows_remote_failure (c : S3Code) (d : Disk) (remoteDeleteOk : Bool)
    (hwf : WellFormedDisk c d) :
    (destroy true remoteDeleteOk c d).1 = .ok () ∧
    (destroy true remoteDeleteOk c d).2.1 = destroy_cached true c d ∧
    dirExists (destroy true remoteDeleteOk c d).2.1 (parentDir c) = false ∧
    dirExists (destroy true remoteDeleteOk c d).2.1 (get_unzipped_code_location c) = false ∧
    (destroy true remoteDeleteOk c d).2.2 =
      [.delete "us-east-1" c.s3_bucket c.s3_key (truthyVersion c.s3_object_version)] := by
  refine ⟨rfl, rfl, ?_, ?_, rfl⟩
  · show dirExists (destroy_cached true c d) (parentDir c) = false
    unfold destroy_cached
    by_cases hex : dirExists d (parentDir c) = true
    · simp only [hex, if_true]
      exact dirExists_rmtree_of_isPrefixOf d _ _ (isPrefixOf_self _)
    · simp only [Bool.not_eq_true] at hex
      simp only [hex, Bool.false_eq_true, if_false]
  · show dirExists (destroy_cached true c d) (get_unzipped_code_location c) = false
    unfold destroy_cached
    by_cases hex : dirExists d (parentDir c) = true
    · simp only [hex, if_true]
      exact dirExists_rmtree_of_isPrefixOf d _ _ (parentDir_isPrefixOf_location c)
    · simp only [Bool.not_eq_true] at hex
      simp only [hex, Bool.false_eq_true, if_false]
      rw [Bool.eq_false_iff]
      intro htgt
      rw [WellFormedDisk] at hwf
      rw [hwf htgt] at hex
      exact Bool.true_eq_false.mp hex

/-- Witness for C6 at a concrete input: a materialized `code0` whose remote
object is already gone. -/
theorem destroy_swallows_remote_failure_witness :
    (destroy true false code0 (mkdirParents ⟨[]⟩ code0)).1 = .ok () ∧
    dirExists (destroy true false code0 (mkdirParents ⟨[]⟩ code0)).2.1
      (get_unzipped_code_location code0) = false := by
  have h := destroy_swallows_remote_failure code0 (mkdirParents ⟨[]⟩ code0) false
      (by intro hloc; decide)
  exact ⟨h.1, h.2.2.2.1⟩

/-- C3 (failing input): on a fresh disk, a failed download leaves the target
directory behind — the `mkdir` precedes the download — so the very next call
sees the directory, returns successfully at once and performs no download,
handing out a directory into which nothing was ever unzipped. -/
theorem prepare_failure_leaves_target_dir :
    prepare_for_execution false code0 ⟨[]⟩ =
      (.error .clientError, mkdirParents ⟨[]⟩ code0, [download_archive_to_file code0]) ∧
    dirExists (mkdirParents ⟨[]⟩ code0) (get_unzipped_code_location code0) = true ∧
    prepare_for_execution true code0 (mkdirParents ⟨[]⟩ code0) =
      (.ok (), mkdirParents ⟨[]⟩ code0, []) := by
  refine ⟨rfl, by decide, rfl⟩

/-- C10: every request the artifact cache issues to S3 — the archive download
issued by `prepare_for_execution` via `_download_archive_to_file`, the
presigned URL generation, and the deletion issued by `destroy` — is made with
a client constructed for the fixed region `us-east-1`, for every artifact. -/
theorem s3_requests_use_fixed_region (c : S3Code) (remoteOk rmtreeOk remoteDeleteOk : Bool)
    (d : Disk) (r1 r2 : S3Request)
    (h1 : r1 ∈ (prepare_for_execution remoteOk c d).2.2)
    (h2 : r2 ∈ (destroy rmtreeOk remoteDeleteOk c d).2.2) :
    (download_archive_to_file c).region = "us-east-1" ∧
    (generate_presigned_url c).region = "us-east-1" ∧
    r1.region = "us-east-1" ∧ r2.region = "us-east-1" := by
  refine ⟨rfl, rfl, ?_, ?_⟩
  · unfold prepare_for_execution at h1
    by_cases hex : dirExists d (get_unzipped_code_location c) = true
    · simp [hex] at h1
    · simp only [Bool.not_eq_true] at hex
      cases remoteOk <;> simp [hex] at h1 <;> simp [h1, download_archive_to_file, S3Request.region]
  · unfold destroy at h2
    simp at h2
    simp [h2, S3Request.region]

/-- Witness for C10 at a concrete input. -/
theorem s3_requests_use_fixed_region_witness :
    (download_archive_to_file code0).region = "us-east-1" ∧
    (S3Request.download "us-east-1" "bkt" "k.zip" none).region = "us-east-1" := by
  have h := s3_requests_use_fixed_region code0 true true true ⟨[]⟩
      (S3Request.download "us-east-1" "bkt" "k.zip" none)
      (S3Request.delete "us-east-1" "bkt" "k.zip" none)
      (by decide) (by decide)
  exact ⟨h.1, h.2.2.1⟩

/-- Splitting at the first occurrence of a separator is unambiguous: if the
separator occurs in neither left part, equal concatenations have equal
parts. -/
theorem append_sep_inj {α : Type} (sep : α) (xs : List α) :
    ∀ (xs' rest rest' : List α), sep ∉ xs → sep ∉ xs' →
      xs ++ sep :: rest = xs' ++ sep :: rest' → xs = xs' ∧ rest = rest' := by
  induction xs with
  | nil =>
    intro xs' rest rest' _ hx' h
    cases xs' with
    | nil => simpa using h
    | cons b bs =>
      simp only [List.nil_append, List.cons_append, List.cons.injEq] at h
      exact absurd (by simp [h.1]) hx'
  | cons a as ih =>
    intro xs' rest rest' hx hx' h
    cases xs' with
    | nil =>
      simp only [List.nil_append, List.cons_append, List.cons.injEq] at h
      exact absurd (by simp [h.1]) hx
    | cons b bs =>
      simp only [List.cons_append, List.cons.injEq] at h
      obtain ⟨hab, h2⟩ := h
      have hxs : sep ∉ as := fun hm => hx (List.mem_cons_of_mem a hm)
      have hxs' : sep ∉ bs := fun hm => hx' (List.mem_cons_of_mem b hm)
      obtain ⟨h3, h4⟩ := ih bs rest rest' hxs hxs' h2
      exact ⟨by rw [hab, h3], h4⟩

/-- The characters of the unzipped code location, with the fixed prefix split
off and the appends right-associated around the two `/` separators that follow
the bucket and the id. -/
theorem location_data (c : S3Code) :
    (get_unzipped_code_location c).data =
      "/tmp".data ++ ("/lambda/".data ++
        (c.s3_bucket.data ++ ('/' :: (c.id.data ++ ('/' :: "code".data))))) := by
  have hslash : ("/" : String).data = ['/'] := rfl
  have hcode : ("/code" : String).data = '/' :: ("code" : String).data := rfl
  simp only [get_unzipped_code_location, gettempdir, String.data_append,
    List.append_assoc, hslash, hcode, List.singleton_append, List.cons_append,
    List.nil_append]

/-- C7 (counterexample): with a `/` inside the bucket name, two artifacts with
different `(bucket, id)` pairs share the same derived local path. -/
theorem unzipped_code_location_collision :
    get_unzipped_code_location
        { id := "c", s3_bucket := "a/b", s3_key := "k1", s3_object_version := none,
          code_sha256 := "s1", code_size := 1 } =
      get_unzipped_code_location
        { id := "b/c", s3_bucket := "a", s3_key := "k2", s3_object_version := none,
          code_sha256 := "s2", code_size := 2 } ∧
    ¬(("a/b" : String) = "a" ∧ ("c" : String) = "b/c") := by
  exact ⟨rfl, by decide⟩

/-- C7 (amended): the local cache location is a deterministic function of
`(s3_bucket, id)` alone, and it is injective in that pair provided neither the
bucket name nor the artifact id contains a `/` character (true of S3 bucket
names and of the generated artifact ids). -/
theorem unzipped_code_location_det_inj (c c' : S3Code)
    (hb : '/' ∉ c.s3_bucket.data) (hb' : '/' ∉ c'.s3_bucket.data)
    (hi : '/' ∉ c.id.data) (hi' : '/' ∉ c'.id.data) :
    (c.s3_bucket = c'.s3_bucket → c.id = c'.id →
      get_unzipped_code_location c = get_unzipped_code_location c') ∧
    (get_unzipped_code_location c = get_unzipped_code_location c' →
      c.s3_bucket = c'.s3_bucket ∧ c.id = c'.id) := by
  constructor
  · intro h1 h2
    simp [get_unzipped_code_location, h1, h2]
  · intro h
    have hdata := congrArg String.data h
    rw [location_data, location_data] at hdata
    have h1 := List.append_cancel_left hdata
    have h2 := List.append_cancel_left h1
    obtain ⟨hbkt, hrest⟩ :=
      append_sep_inj '/' c.s3_bucket.data c'.s3_bucket.data _ _ hb hb' h2
    obtain ⟨hid, -⟩ := append_sep_inj '/' c.id.data c'.id.data _ _ hi hi' hrest
    exact ⟨String.ext hbkt, String.ext hid⟩

/-- A second artifact with the same `(bucket, id)` as `code0` but a different
key; used by the C7 witness. -/
def code0twin : S3Code :=
  { id := "a1", s3_bucket := "bkt", s3_key := "other.zip", s3_object_version := some "v7",
    code_sha256 := "sha2", code_size := 9 }

/-- Witness for the amended C7 at concrete inputs: same `(bucket, id)` with an
otherwise different artifact yields the same path. -/
theorem unzipped_code_location_det_inj_witness :
    get_unzipped_code_location code0 = get_unzipped_code_location code0twin := by
  have h := unzipped_code_location_det_inj code0 code0twin
      (by decide) (by decide) (by decide) (by decide)
  exact h.1 rfl rfl

/-- The decimal digit characters have the expected code points. -/
theorem digitChar_toNat (n : Nat) (h : n < 10) : (digitChar n).toNat = 48 + n := by
  interval_cases n <;> decide

/-- Folding one more digit onto the right multiplies the value by ten. -/
theorem decodeDigits_append_singleton (cs : List Char) (c : Char) :
    decodeDigits (cs ++ [c]) = decodeDigits cs * 10 + (c.toNat - 48) := by
  simp [decodeDigits, List.foldl_append]

/-- With enough fuel, decoding inverts the decimal rendering. -/
theorem decodeDigits_natReprAux (fuel : Nat) :
    ∀ n, n < fuel → decodeDigits (natReprAux fuel n) = n := by
  induction fuel with
  | zero => intro n h; omega
  | succ fuel ih =>
    intro n h
    unfold natReprAux
    by_cases h10 : n < 10
    · simp only [h10, if_true]
      simp [decodeDigits, digitChar_toNat n h10]
    · simp only [h10, if_false]
      rw [decodeDigits_append_singleton]
      have hdiv : n / 10 < fuel := by
        have h0 : 0 < n := by omega
        have := Nat.div_lt_self h0 (by omega : 1 < 10)
        omega
      rw [ih (n / 10) hdiv]
      rw [digitChar_toNat (n % 10) (Nat.mod_lt n (by omega))]
      have := Nat.div_add_mod n 10
      omega

/-- Decoding inverts `natRepr`. -/
theorem decodeDigits_natRepr (n : Nat) : decodeDigits (natRepr n).data = n :=
  decodeDigits_natReprAux (n + 1) n (Nat.lt_succ_self n)

/-- The decimal rendering of a natural number is injective. -/
theorem natRepr_injective : Function.Injective natRepr := by
  intro m n h
  have := congrArg (fun s => decodeDigits (String.data s)) h
  simpa [decodeDigits_natRepr] using this

/-- Every character produced by the decimal rendering is a digit. -/
theorem natReprAux_digits (fuel : Nat) :
    ∀ n c, c ∈ natReprAux fuel n → 48 ≤ c.toNat ∧ c.toNat ≤ 57 := by
  induction fuel with
  | zero => intro n c h; simp [natReprAux] at h
  | succ fuel ih =>
    intro n c h
    unfold natReprAux at h
    by_cases h10 : n < 10
    · simp only [h10, if_true, List.mem_singleton] at h
      subst h
      rw [digitChar_toNat n h10]
      omega
    · simp only [h10, if_false, List.mem_append, List.mem_singleton] at h
      rcases h with h | h
      · exact ih (n / 10) c h
      · subst h
        rw [digitChar_toNat (n % 10) (Nat.mod_lt n (by omega))]
        have := Nat.mod_lt n (show 0 < 10 by omega)
        omega

/-- A stringified counter value is never the reserved `$LATEST` qualifier. -/
theorem natRepr_ne_LATEST (n : Nat) : natRepr n ≠ "$LATEST" := by
  intro h
  have hdata : natReprAux (n + 1) n = ("$LATEST" : String).data := congrArg String.data h
  have hmem : '$' ∈ natReprAux (n + 1) n := by
    rw [hdata]; decide
  have := (natReprAux_digits (n + 1) n '$' hmem).1
  exact absurd this (by decide)

/-! External enum and API types from `localstack.aws.api.lambda_` (outside the
shown slice); modelled as strings. -/

abbrev Runtime := String
abbrev PackageType := String
abbrev Architecture := String
abbrev TracingMode := String
abbrev State := String
abbrev StateReasonCode := String
abbrev LastUpdateStatus := String
abbrev Cors := String
abbrev FunctionUrlAuthType := String
abbrev DestinationConfig := String
abbrev ProvisionedConcurrencyStatusEnum := String

/-- Embedding of the frozen dataclass `VersionState`. -/
structure VersionState where
  state : State
  code : Option StateReasonCode := none
  reason : Option String := none
deriving DecidableEq, Repr

/-- Embedding of the frozen dataclass `UpdateStatus`. -/
structure UpdateStatus where
  status : Option LastUpdateStatus
  code : Option String := none
  reason : Option String := none
deriving DecidableEq, Repr

/-- Embedding of `LambdaEphemeralStorage`. -/
structure LambdaEphemeralStorage where
  size : Nat
deriving DecidableEq, Repr

/-- Embedding of `ImageConfig`. -/
structure ImageConfig where
  working_directory : String
  command : List String := []
  entrypoint : List String := []
deriving DecidableEq, Repr

/-- Embedding of the frozen dataclass `VersionFunctionConfiguration`.  The
`revision_id` field is `init=False` with `default_factory=long_uid` in the
source: it is set by the constructor embedding `mkVersionFunctionConfiguration`
below, never by the caller. -/
structure VersionFunctionConfiguration where
  description : String
  role : String
  timeout : Nat
  runtime : Runtime
  memory_size : Nat
  handler : String
  package_type : PackageType
  reserved_concurrent_executions : Nat
  environment : List (String × String)
  architectures : List Architecture
  internal_revision : String
  ephemeral_storage : LambdaEphemeralStorage
  tracing_config_mode : TracingMode
  code : S3Code
  last_modified : String
  state : VersionState
  image_config : Option ImageConfig := none
  last_update : Option UpdateStatus := none
  revision_id : String := ""
  layers : List String := []
deriving DecidableEq, Repr

/-- Uid-generation state.  Modelled from the spec: `long_uid` (from
`localstack.utils.strings`, outside the shown slice) returns a fresh opaque
token on every call; modelled as a deterministic counter-indexed supply. -/
structure UidGen where
  counter : Nat
deriving DecidableEq, Repr

/-- The token issued for supply position `n`. -/
def uidOf (n : Nat) : String := "uid-" ++ natRepr n

/-- Drawing a token advances the supply. -/
def long_uid (g : UidGen) : String × UidGen := (uidOf g.counter, ⟨g.counter + 1⟩)

/-- Constructor embedding for `VersionFunctionConfiguration`: whatever
`revision_id` the caller put in `base` is discarded and replaced by a freshly
generated token, exactly as `dataclasses.field(init=False,
default_factory=long_uid)` does. -/
def mkVersionFunctionConfiguration (base : VersionFunctionConfiguration) (g : UidGen) :
    VersionFunctionConfiguration × UidGen :=
  ({ base with revision_id := (long_uid g).1 }, (long_uid g).2)

/-- Embedding of `AliasRoutingConfig`; weights are modelled as rationals. -/
structure AliasRoutingConfig where
  version_weights : List (String × Rat)
deriving DecidableEq, Repr

/-- Embedding of the frozen dataclass `VersionIdentifier`. -/
structure VersionIdentifier where
  function_name : String
  qualifier : String
  region : String
  account : String
deriving DecidableEq, Repr

/-- Embedding of the frozen dataclass `VersionAlias`.  Like
`VersionFunctionConfiguration`, its `revision_id` is `init=False` and filled by
the constructor embedding `mkVersionAlias`. -/
structure VersionAlias where
  function_version : String
  name : String
  description : Option String
  routing_configuration : Option AliasRoutingConfig := none
  revision_id : String := ""
deriving DecidableEq, Repr

/-- Constructor embedding for `VersionAlias`: the caller supplies every
`init` field, the revision token is drawn from the uid supply. -/
def mkVersionAlias (fv nm : String) (descr : Option String)
    (rc : Option AliasRoutingConfig) (g : UidGen) : VersionAlias × UidGen :=
  ({ function_version := fv, name := nm, description := descr,
     routing_configuration := rc, revision_id := (long_uid g).1 }, (long_uid g).2)

/-- Embedding of the frozen dataclass `FunctionVersion`. -/
structure FunctionVersion where
  id : VersionIdentifier
  config : VersionFunctionConfiguration
deriving DecidableEq, Repr

/-- Embedding of `FunctionUrlConfig`. -/
structure FunctionUrlConfig where
  function_arn : String
  function_name : String
  cors : Cors
  url_id : String
  url : String
  auth_type : FunctionUrlAuthType
  creation_time : String
  last_modified_time : Option String := none
  function_qualifier : Option String := some "$LATEST"
deriving DecidableEq, Repr

/-- Embedding of `ResourcePolicy`; statements are kept opaque. -/
structure ResourcePolicy where
  Version : String
  Id : String
  Statement : List String
deriving DecidableEq, Repr

/-- Embedding of `FunctionResourcePolicy`. -/
structure FunctionResourcePolicy where
  revision_id : String
  policy : ResourcePolicy
deriving DecidableEq, Repr

/-- Embedding of `EventInvokeConfig`. -/
structure EventInvokeConfig where
  function_name : String
  qualifier : String
  last_modified : Option String := none
  destination_config : Option DestinationConfig := none
  maximum_retry_attempts : Option Nat := none
  maximum_event_age_in_seconds : Option Nat := none
deriving DecidableEq, Repr

/-- Embedding of `ProvisionedConcurrencyConfiguration`. -/
structure ProvisionedConcurrencyConfiguration where
  provisioned_concurrent_executions : Nat
  last_modified : String
deriving DecidableEq, Repr

/-- Embedding of the `Function` aggregate.  The dict-typed fields become
association lists (insertion at the front shadows older entries, like a dict
overwrite); the structural `threading.RLock` is omitted from the sequential
embedding. -/
structure Function where
  function_name : String
  code_signing_config_arn : Option String := none
  aliases : List (String × VersionAlias) := []
  versions : List (String × FunctionVersion) := []
  function_url_configs : List (String × FunctionUrlConfig) := []
  permissions : List (String × FunctionResourcePolicy) := []
  event_invoke_configs : List (String × EventInvokeConfig) := []
  reserved_concurrent_executions : Option Nat := none
  provisioned_concurrency_configs : List (String × ProvisionedConcurrencyConfiguration) := []
  tags : Option (List (String × String)) := none
  next_version : Nat := 1
deriving DecidableEq, Repr

/-- Spec-level error taxonomy: the `KeyError` raised by a missing dict key is
surfaced as the `NotFoundError` of the spec; validation failures as
`ValidationError`. -/
inductive LambdaError where
  | notFound
  | validation (msg : String)
deriving DecidableEq, Repr

/-- Embedding of `Function.latest`: `self.versions["$LATEST"]`, a dict access
whose missing-key failure is the not-found error. -/
def Function.latest (f : Function) : Except LambdaError FunctionVersion :=
  match f.versions.lookup "$LATEST" with
  | some v => .ok v
  | none => .error .notFound

/-- Modelled from the spec: `PublishVersion` is not part of the shown source
slice (only the `Function` record with its `next_version` counter and lock
is).  Per the spec it assigns qualifier = stringified `next_version`,
increments the counter, inserts the new immutable version into `versions` and
returns it. -/
def publishVersion (f : Function) (region account : String)
    (cfg : VersionFunctionConfiguration) : Function × FunctionVersion :=
  ({ f with
      versions :=
        (natRepr f.next_version,
          { id := { function_name := f.function_name,
                    qualifier := natRepr f.next_version,
                    region := region, account := account },
            config := cfg }) :: f.versions,
      next_version := f.next_version + 1 },
   { id := { function_name := f.function_name, qualifier := natRepr f.next_version,
             region := region, account := account },
     config := cfg })

/-- Iterated `publishVersion`: `N` sequential calls, collecting the returned
qualifiers in call order. -/
def publishN (f : Function) (region account : String)
    (cfg : VersionFunctionConfiguration) : Nat → Function × List String
  | 0 => (f, [])
  | n + 1 =>
    ((publishN (publishVersion f region account cfg).1 region account cfg n).1,
     (publishVersion f region account cfg).2.id.qualifier ::
       (publishN (publishVersion f region account cfg).1 region account cfg n).2)

/-- The consecutive naturals `s, s+1, ..., s+n-1`. -/
def seqFrom (s : Nat) : Nat → List Nat
  | 0 => []
  | n + 1 => s :: seqFrom (s + 1) n

/-- Modelled from the spec: `UpsertAlias(name, target_version, optional
secondary, optional weight)` is not part of the shown source slice (only the
`VersionAlias`/`AliasRoutingConfig` records are).  Per the spec it validates
that both referenced qualifiers exist in `versions` and that the weight lies
in `[0,1]`, builds a routing configuration with at most the one secondary
entry, replaces any existing alias of the same name, and draws a fresh
revision token. -/
def upsertAlias (f : Function) (nm target : String)
    (secondary : Option (String × Rat)) (g : UidGen) :
    Except LambdaError (Function × VersionAlias × UidGen) :=
  if (f.versions.lookup target).isNone then
    .error (.validation "function version does not exist")
  else
    match secondary with
    | none =>
      .ok ({ f with aliases := (nm, (mkVersionAlias target nm none none g).1) :: f.aliases },
           (mkVersionAlias target nm none none g).1, (mkVersionAlias target nm none none g).2)
    | some (sv, w) =>
      if (f.versions.lookup sv).isNone then
        .error (.validation "secondary function version does not exist")
      else if w < 0 ∨ 1 < w then
        .error (.validation "weight out of range")
      else
        .ok ({ f with
                aliases :=
                  (nm, (mkVersionAlias target nm none (some ⟨[(sv, w)]⟩) g).1) :: f.aliases },
             (mkVersionAlias target nm none (some ⟨[(sv, w)]⟩) g).1,
             (mkVersionAlias target nm none (some ⟨[(sv, w)]⟩) g).2)

/-- Members of `seqFrom s n` are at least `s`. -/
theorem mem_seqFrom_ge : ∀ (n s x : Nat), x ∈ seqFrom s n → s ≤ x := by
  intro n
  induction n with
  | zero => intro s x h; simp [seqFrom] at h
  | succ n ih =>
    intro s x h
    rw [seqFrom] at h
    rcases List.mem_cons.mp h with h0 | hr
    · omega
    · have := ih (s + 1) x hr
      omega

/-- Consecutive naturals have no duplicates. -/
theorem seqFrom_nodup : ∀ (n s : Nat), (seqFrom s n).Nodup := by
  intro n
  induction n with
  | zero => intro s; simp [seqFrom]
  | succ n ih =>
    intro s
    rw [seqFrom]
    refine List.nodup_cons.mpr ⟨?_, ih (s + 1)⟩
    intro hmem
    have := mem_seqFrom_ge n (s + 1) s hmem
    omega

/-- The qualifiers produced by `N` sequential publishes are the stringified
counter values starting at the current counter. -/
theorem publishN_qualifiers (region account : String) (cfg : VersionFunctionConfiguration) :
    ∀ (N : Nat) (f : Function),
      (publishN f region account cfg N).2 = (seqFrom f.next_version N).map natRepr := by
  intro N
  induction N with
  | zero => intro f; rfl
  | succ n ih =>
    intro f
    rw [seqFrom]
    simp only [publishN, List.map_cons]
    rw [ih]
    rfl

/-- Publishing never removes an entry from `versions`. -/
theorem publishN_lookup_isSome (region account : String) (cfg : VersionFunctionConfiguration) :
    ∀ (N : Nat) (f : Function) (q : String),
      (f.versions.lookup q).isSome = true →
      ((publishN f region account cfg N).1.versions.lookup q).isSome = true := by
  intro N
  induction N with
  | zero => intro f q h; exact h
  | succ n ih =>
    intro f q h
    apply ih
    by_cases hq : (q == natRepr f.next_version) = true
    · simp [publishVersion, List.lookup, hq]
    · simp only [Bool.not_eq_true] at hq
      simpa [publishVersion, List.lookup, hq] using h

/-- Every qualifier handed out by `publishN` can be looked up in the final
`versions` map. -/
theorem publishN_mem_lookup (region account : String) (cfg : VersionFunctionConfiguration) :
    ∀ (N : Nat) (f : Function) (q : String),
      q ∈ (publishN f region account cfg N).2 →
      ((publishN f region account cfg N).1.versions.lookup q).isSome = true := by
  intro N
  induction N with
  | zero => intro f q h; simp [publishN] at h
  | succ n ih =>
    intro f q h
    rw [publishN] at h
    rcases List.mem_cons.mp h with h0 | hr
    · subst h0
      show ((publishN (publishVersion f region account cfg).1 region account cfg n).1.versions.lookup
          (publishVersion f region account cfg).2.id.qualifier).isSome = true
      apply publishN_lookup_isSome
      simp [publishVersion, List.lookup]
    · exact ih (publishVersion f region account cfg).1 q hr

/-- Concrete configuration record used by witnesses. -/
def cfg0 : VersionFunctionConfiguration :=
  { description := "d", role := "role0", timeout := 3, runtime := "python3.9",
    memory_size := 128, handler := "h.handler", package_type := "Zip",
    reserved_concurrent_executions := 0, environment := [], architectures := ["x86_64"],
    internal_revision := "ir0", ephemeral_storage := ⟨512⟩,
    tracing_config_mode := "PassThrough", code := code0, last_modified := "t0",
    state := { state := "Pending" } }

/-- Concrete fresh function used by witnesses. -/
def fun0 : Function := { function_name := "fn" }

/-- Concrete `$LATEST` version used by witnesses. -/
def fv0 : FunctionVersion :=
  { id := { function_name := "fn", qualifier := "$LATEST", region := "us-east-1",
            account := "000000000000" },
    config := cfg0 }

/-- Concrete function whose `versions` map holds `$LATEST`. -/
def funWithLatest : Function :=
  { function_name := "fn", versions := [("$LATEST", fv0)] }

/-- C4: on a fresh `Function` (counter at 1), `N` sequential `PublishVersion`
calls yield exactly the qualifiers `"1", "2", ..., "N"` in call order — the
stringified counter values, pairwise distinct, never `$LATEST` (whether or not
`$LATEST` is already in `versions`) — and each published qualifier is present
in the final `versions` map. -/
theorem publishVersion_sequential_qualifiers (f : Function) (region account : String)
    (cfg : VersionFunctionConfiguration) (N : Nat) (hfresh : f.next_version = 1) :
    (publishN f region account cfg N).2 = (seqFrom 1 N).map natRepr ∧
    ((publishN f region account cfg N).2).Nodup ∧
    "$LATEST" ∉ (publishN f region account cfg N).2 ∧
    ∀ q ∈ (publishN f region account cfg N).2,
      ((publishN f region account cfg N).1.versions.lookup q).isSome = true := by
  have h1 : (publishN f region account cfg N).2 = (seqFrom 1 N).map natRepr := by
    rw [publishN_qualifiers, hfresh]
  refine ⟨h1, ?_, ?_, publishN_mem_lookup region account cfg N f⟩
  · rw [h1]
    exact (seqFrom_nodup N 1).map natRepr_injective
  · rw [h1]
    intro hmem
    rcases List.mem_map.mp hmem with ⟨x, -, hx⟩
    exact natRepr_ne_LATEST x hx

/-- Witness for C4 at a concrete input: three publishes on `funWithLatest`
(a fresh function that already holds `$LATEST`). -/
theorem publishVersion_sequential_qualifiers_witness :
    (publishN funWithLatest "us-east-1" "000000000000" cfg0 3).2 = ["1", "2", "3"] ∧
    "$LATEST" ∉ (publishN funWithLatest "us-east-1" "000000000000" cfg0 3).2 := by
  have h := publishVersion_sequential_qualifiers funWithLatest "us-east-1" "000000000000"
      cfg0 3 rfl
  refine ⟨?_, h.2.2.1⟩
  rw [h.1]
  decide

/-- C5: `latest` returns the version stored at qualifier `$LATEST` when one
is present, and fails with the not-found error when the function was never
fully initialized. -/
theorem latest_returns_LATEST_or_notFound (f : Function) (v : FunctionVersion) :
    (f.versions.lookup "$LATEST" = some v → f.latest = .ok v) ∧
    (f.versions.lookup "$LATEST" = none → f.latest = .error .notFound) := by
  constructor <;> intro h <;> simp [Function.latest, h]

/-- Witness for C5 at concrete inputs: a fully initialized function and a
never-initialized one. -/
theorem latest_returns_LATEST_or_notFound_witness :
    funWithLatest.latest = .ok fv0 ∧ fun0.latest = .error .notFound :=
  ⟨(latest_returns_LATEST_or_notFound funWithLatest fv0).1 rfl,
   (latest_returns_LATEST_or_notFound fun0 fv0).2 rfl⟩

/-- The routing invariant of an alias: every weight lies in `[0, 1]`, and
there is at most one secondary version. -/
def aliasInvariant (a : VersionAlias) : Prop :=
  ∀ rc, a.routing_configuration = some rc →
    rc.version_weights.length ≤ 1 ∧ ∀ p ∈ rc.version_weights, 0 ≤ p.2 ∧ p.2 ≤ 1

/-- C8: aliases reachable through the alias operation of the model satisfy the
routing invariant: if every alias of `f` satisfies it and `upsertAlias`
succeeds, the new alias satisfies it and so does every alias of the resulting
function. -/
theorem upsertAlias_routing_invariant (f : Function) (nm target : String)
    (secondary : Option (String × Rat)) (g : UidGen)
    (fPrime : Function) (a : VersionAlias) (gPrime : UidGen)
    (hinv : ∀ p ∈ f.aliases, aliasInvariant p.2)
    (h : upsertAlias f nm target secondary g = .ok (fPrime, a, gPrime)) :
    aliasInvariant a ∧ ∀ p ∈ fPrime.aliases, aliasInvariant p.2 := by
  unfold upsertAlias at h
  by_cases h1 : (f.versions.lookup target).isNone = true
  · simp [h1] at h
  · simp only [h1, Bool.false_eq_true, if_false] at h
    cases secondary with
    | none =>
      simp only [Except.ok.injEq, Prod.mk.injEq] at h
      obtain ⟨hf, ha, -⟩ := h
      have hanone : a.routing_configuration = none := by
        rw [← ha]; rfl
      have hainv : aliasInvariant a := by
        intro rc hrc
        rw [hanone] at hrc
        cases hrc
      refine ⟨hainv, ?_⟩
      intro p hp
      rw [← hf] at hp
      rcases List.mem_cons.mp hp with h0 | hr
      · rw [h0]
        show aliasInvariant (mkVersionAlias target nm none none g).1
        rw [ha]
        exact hainv
      · exact hinv p hr
    | some sw =>
      obtain ⟨sv, w⟩ := sw
      by_cases h2 : (f.versions.lookup sv).isNone = true
      · simp [h2] at h
      · simp only [h2, Bool.false_eq_true, if_false] at h
        by_cases h3 : w < 0 ∨ 1 < w
        · simp [h3] at h
        · simp only [h3, if_false] at h
          simp only [Except.ok.injEq, Prod.mk.injEq] at h
          obtain ⟨hf, ha, -⟩ := h
          push_neg at h3
          have harc : a.routing_configuration = some ⟨[(sv, w)]⟩ := by
            rw [← ha]; rfl
          have hainv : aliasInvariant a := by
            intro rc hrc
            rw [harc] at hrc
            cases hrc
            refine ⟨by simp, ?_⟩
            intro p hp
            simp only [List.mem_singleton] at hp
            subst hp
            exact ⟨h3.1, h3.2⟩
          refine ⟨hainv, ?_⟩
          intro p hp
          rw [← hf] at hp
          rcases List.mem_cons.mp hp with h0 | hr
          · rw [h0]
            show aliasInvariant (mkVersionAlias target nm none (some ⟨[(sv, w)]⟩) g).1
            rw [ha]
            exact hainv
          · exact hinv p hr

/-- Witness for C8 at a concrete input: add a weighted alias to
`funWithLatest` after publishing a secondary version. -/
theorem upsertAlias_routing_invariant_witness :
    aliasInvariant (mkVersionAlias "$LATEST" "live" none none ⟨0⟩).1 := by
  have h := upsertAlias_routing_invariant funWithLatest "live" "$LATEST" none ⟨0⟩
      { funWithLatest with
          aliases := [("live", (mkVersionAlias "$LATEST" "live" none none ⟨0⟩).1)] }
      (mkVersionAlias "$LATEST" "live" none none ⟨0⟩).1
      (mkVersionAlias "$LATEST" "live" none none ⟨0⟩).2
      (by intro p hp; simp [funWithLatest] at hp) rfl
  exact h.1

/-- C9: the frozen value records are never mutated in place and carry fresh
revision tokens.  Constructing a `VersionFunctionConfiguration` or a
`VersionAlias` sets `revision_id` to the token at the current supply position
— ignoring any value the caller put in the record, since the field is
`init=False` — and advances the supply; the token supply is injective, so
records built at different positions carry different tokens; and publishing a
new version leaves every existing entry of `versions` untouched and stores the
given config unchanged. -/
theorem version_records_immutable_fresh_tokens
    (base basePrime : VersionFunctionConfiguration) (g : UidGen)
    (fv nm : String) (descr : Option String) (rc : Option AliasRoutingConfig)
    (m n : Nat) (hmn : uidOf m = uidOf n)
    (f : Function) (region account : String) (cfg : VersionFunctionConfiguration)
    (q : String) (v : FunctionVersion)
    (hq : f.versions.lookup q = some v) (hne : q ≠ natRepr f.next_version) :
    (mkVersionFunctionConfiguration base g).1.revision_id = uidOf g.counter ∧
    (mkVersionFunctionConfiguration basePrime g).1.revision_id =
      (mkVersionFunctionConfiguration base g).1.revision_id ∧
    (mkVersionFunctionConfiguration base g).2.counter = g.counter + 1 ∧
    (mkVersionAlias fv nm descr rc g).1.revision_id = uidOf g.counter ∧
    (mkVersionAlias fv nm descr rc g).2.counter = g.counter + 1 ∧
    m = n ∧
    (publishVersion f region account cfg).1.versions.lookup q = some v ∧
    (publishVersion f region account cfg).2.config = cfg := by
  refine ⟨rfl, rfl, rfl, rfl, rfl, ?_, ?_, rfl⟩
  · have hdata := congrArg String.data hmn
    simp only [uidOf, String.data_append] at hdata
    have := List.append_cancel_left hdata
    exact natRepr_injective (String.ext this)
  · have hne2 : (q == natRepr f.next_version) = false := by
      simp [hne]
    simpa [publishVersion, List.lookup, hne2] using hq

/-- Witness for C9 at concrete inputs: construction from supply position 0,
and publishing on `funWithLatest` preserving its `$LATEST` entry. -/
theorem version_records_immutable_fresh_tokens_witness :
    (mkVersionFunctionConfiguration cfg0 ⟨0⟩).1.revision_id = uidOf 0 ∧
    (publishVersion funWithLatest "us-east-1" "000000000000" cfg0).1.versions.lookup
      "$LATEST" = some fv0 := by
  have h := version_records_immutable_fresh_tokens cfg0
      { cfg0 with revision_id := "caller-supplied" } ⟨0⟩
      "$LATEST" "live" none none 5 5 rfl funWithLatest "us-east-1" "000000000000" cfg0
      "$LATEST" fv0 rfl (by decide)
  exact ⟨h.1, h.2.2.2.2.2.2.1⟩

/-! Interleaved semantics of `prepare_for_execution` for the single-flight
property.  Each of `n` threads runs the body of `prepare_for_execution` on the
same never-yet-materialized artifact: acquire `_disk_lock`, check whether the
target directory exists (returning at once if so), otherwise create it and
perform the download+unzip, then release the lock.  Steps of different threads
interleave arbitrarily; the scheduler is adversarial. -/

/-- Program counter of one thread executing `prepare_for_execution`:
`finished b` records whether this thread was the one that downloaded. -/
inductive TState where
  | start
  | locked
  | downloading
  | finished (downloaded : Bool)
deriving DecidableEq, Repr

/-- Shared state: per-thread program counters, the holder of the per-artifact
`_disk_lock`, whether the target directory exists, and how many download+unzip
operations have run to completion. -/
structure CState (n : Nat) where
  thread : Fin n → TState
  lockHolder : Option (Fin n)
  dirPresent : Bool
  downloads : Nat

/-- One interleaving step.  The existence check, the `mkdir`, the download and
the lock release each happen while the stepping thread holds the lock, exactly
as in the `with self._disk_lock:` block of the source. -/
inductive Step {n : Nat} : CState n → CState n → Prop where
  | acquire (s : CState n) (i : Fin n)
      (h1 : s.thread i = .start) (h2 : s.lockHolder = none) :
      Step s ⟨Function.update s.thread i .locked, some i, s.dirPresent, s.downloads⟩
  | checkPresent (s : CState n) (i : Fin n)
      (h1 : s.thread i = .locked) (h2 : s.lockHolder = some i) (h3 : s.dirPresent = true) :
      Step s ⟨Function.update s.thread i (.finished false), none, s.dirPresent, s.downloads⟩
  | checkAbsent (s : CState n) (i : Fin n)
      (h1 : s.thread i = .locked) (h2 : s.lockHolder = some i) (h3 : s.dirPresent = false) :
      Step s ⟨Function.update s.thread i .downloading, s.lockHolder, true, s.downloads⟩
  | finishDownload (s : CState n) (i : Fin n)
      (h1 : s.thread i = .downloading) (h2 : s.lockHolder = some i) :
      Step s ⟨Function.update s.thread i (.finished true), none, s.dirPresent, s.downloads + 1⟩

/-- All threads at the call site, lock free, artifact never materialized. -/
def initState (n : Nat) : CState n :=
  { thread := fun _ => .start, lockHolder := none, dirPresent := false, downloads := 0 }

/-- States reachable from the initial state by interleaved execution. -/
def Reachable (n : Nat) (s : CState n) : Prop :=
  Relation.ReflTransGen Step (initState n) s

/-- Inductive invariant of the interleaved system: the lock is exclusive, at
most one download ever completes, the directory is present exactly when a
download completed or is in flight, a thread that skipped work saw the
directory, and the thread that downloaded is unique. -/
def Inv {n : Nat} (s : CState n) : Prop :=
  (∀ i, s.thread i = .locked ∨ s.thread i = .downloading → s.lockHolder = some i) ∧
  s.downloads ≤ 1 ∧
  (s.dirPresent = true ↔ s.downloads = 1 ∨ ∃ i, s.thread i = .downloading) ∧
  ((∃ i, s.thread i = .finished false) → s.dirPresent = true) ∧
  ((∃ i, s.thread i = .downloading) → s.downloads = 0) ∧
  (s.downloads = 1 → ∃ i, s.thread i = .finished true) ∧
  (∀ i j, s.thread i = .finished true → s.thread j = .finished true → i = j) ∧
  (s.downloads = 0 → ∀ i, s.thread i ≠ .finished true)

/-- The initial state satisfies the invariant. -/
theorem Inv_init (n : Nat) : Inv (initState n) := by
  refine ⟨?_, ?_, ?_, ?_, ?_, ?_, ?_, ?_⟩ <;> simp [initState]

/-- The invariant is preserved by every interleaving step. -/
theorem Inv_step {n : Nat} {s t : CState n} (hinv : Inv s) (hst : Step s t) : Inv t := by
  obtain ⟨i1, i2, i3, i4, i5, i6, i7, i8⟩ := hinv
  cases hst with
  | acquire i h1 h2 =>
    dsimp only [Inv]
    refine ⟨?_, i2, ?_, ?_, ?_, ?_, ?_, ?_⟩
    · intro j hj
      by_cases hji : j = i
      · simp [hji]
      · rw [Function.update_noteq hji] at hj
        rw [i1 j hj] at h2
        cases h2
    · rw [i3]
      constructor
      · rintro (hd | ⟨j, hj⟩)
        · exact Or.inl hd
        · have hji : j ≠ i := by
            intro he
            rw [he, h1] at hj
            cases hj
          refine Or.inr ⟨j, ?_⟩
          rw [Function.update_noteq hji]
          exact hj
      · rintro (hd | ⟨j, hj⟩)
        · exact Or.inl hd
        · by_cases hji : j = i
          · rw [hji, Function.update_same] at hj
            cases hj
          · rw [Function.update_noteq hji] at hj
            exact Or.inr ⟨j, hj⟩
    · rintro ⟨j, hj⟩
      by_cases hji : j = i
      · rw [hji, Function.update_same] at hj
        cases hj
      · rw [Function.update_noteq hji] at hj
        exact i4 ⟨j, hj⟩
    · rintro ⟨j, hj⟩
      by_cases hji : j = i
      · rw [hji, Function.update_same] at hj
        cases hj
      · rw [Function.update_noteq hji] at hj
        exact i5 ⟨j, hj⟩
    · intro hd
      obtain ⟨j, hj⟩ := i6 hd
      have hji : j ≠ i := by
        intro he
        rw [he, h1] at hj
        cases hj
      refine ⟨j, ?_⟩
      rw [Function.update_noteq hji]
      exact hj
    · intro a b ha hb
      by_cases hai : a = i
      · rw [hai, Function.update_same] at ha
        cases ha
      · by_cases hbi : b = i
        · rw [hbi, Function.update_same] at hb
          cases hb
        · rw [Function.update_noteq hai] at ha
          rw [Function.update_noteq hbi] at hb
          exact i7 a b ha hb
    · intro hd j
      by_cases hji : j = i
      · rw [hji, Function.update_same]
        intro he
        cases he
      · rw [Function.update_noteq hji]
        exact i8 hd j
  | checkPresent i h1 h2 h3 =>
    have hnodl : ∀ j, s.thread j = TState.downloading → False := by
      intro j hj
      have hlj := i1 j (Or.inr hj)
      rw [hlj] at h2
      have hji : j = i := by
        injection h2
      rw [hji, h1] at hj
      cases hj
    have hdl1 : s.downloads = 1 := by
      rcases i3.mp h3 with hd | ⟨j, hj⟩
      · exact hd
      · exact absurd hj (fun hx => hnodl j hx)
    dsimp only [Inv]
    refine ⟨?_, i2, ?_, ?_, ?_, ?_, ?_, ?_⟩
    · intro j hj
      by_cases hji : j = i
      · rw [hji, Function.update_same] at hj
        rcases hj with hj | hj <;> cases hj
      · rw [Function.update_noteq hji] at hj
        have hlj := i1 j hj
        rw [hlj] at h2
        injection h2 with h
        exact absurd h hji
    · rw [h3]
      constructor
      · intro _
        exact Or.inl hdl1
      · intro _
        rfl
    · intro _
      exact h3
    · rintro ⟨j, hj⟩
      by_cases hji : j = i
      · rw [hji, Function.update_same] at hj
        cases hj
      · rw [Function.update_noteq hji] at hj
        exact absurd hj (fun hx => hnodl j hx)
    · intro hd
      obtain ⟨j, hj⟩ := i6 hd
      have hji : j ≠ i := by
        intro he
        rw [he, h1] at hj
        cases hj
      refine ⟨j, ?_⟩
      rw [Function.update_noteq hji]
      exact hj
    · intro a b ha hb
      by_cases hai : a = i
      · rw [hai, Function.update_same] at ha
        cases ha
      · by_cases hbi : b = i
        · rw [hbi, Function.update_same] at hb
          cases hb
        · rw [Function.update_noteq hai] at ha
          rw [Function.update_noteq hbi] at hb
          exact i7 a b ha hb
    · intro hd
      rw [hd] at hdl1
      cases hdl1
  | checkAbsent i h1 h2 h3 =>
    have hdl0 : s.downloads = 0 := by
      have hnot : ¬(s.downloads = 1 ∨ ∃ j, s.thread j = TState.downloading) := by
        intro hx
        have hdp := i3.mpr hx
        rw [hdp] at h3
        cases h3
      push_neg at hnot
      omega
    dsimp only [Inv]
    refine ⟨?_, i2, ?_, ?_, ?_, ?_, ?_, ?_⟩
    · intro j hj
      by_cases hji : j = i
      · rw [hji]
        exact h2
      · rw [Function.update_noteq hji] at hj
        exact i1 j hj
    · constructor
      · intro _
        refine Or.inr ⟨i, ?_⟩
        rw [Function.update_same]
      · intro _
        rfl
    · intro _
      rfl
    · rintro ⟨j, hj⟩
      exact hdl0
    · intro hd
      rw [hd] at hdl0
      cases hdl0
    · intro a b ha hb
      by_cases hai : a = i
      · rw [hai, Function.update_same] at ha
        cases ha
      · by_cases hbi : b = i
        · rw [hbi, Function.update_same] at hb
          cases hb
        · rw [Function.update_noteq hai] at ha
          rw [Function.update_noteq hbi] at hb
          exact i7 a b ha hb
    · intro _ j
      by_cases hji : j = i
      · rw [hji, Function.update_same]
        intro he
        cases he
      · rw [Function.update_noteq hji]
        exact i8 hdl0 j
  | finishDownload i h1 h2 =>
    have hdl0 : s.downloads = 0 := i5 ⟨i, h1⟩
    have hdp : s.dirPresent = true := i3.mpr (Or.inr ⟨i, h1⟩)
    dsimp only [Inv]
    refine ⟨?_, ?_, ?_, ?_, ?_, ?_, ?_, ?_⟩
    · intro j hj
      by_cases hji : j = i
      · rw [hji, Function.update_same] at hj
        rcases hj with hj | hj <;> cases hj
      · rw [Function.update_noteq hji] at hj
        have hlj := i1 j hj
        rw [hlj] at h2
        injection h2 with h
        exact absurd h hji
    · omega
    · rw [hdp]
      constructor
      · intro _
        exact Or.inl (by omega)
      · intro _
        rfl
    · intro _
      exact hdp
    · rintro ⟨j, hj⟩
      by_cases hji : j = i
      · rw [hji, Function.update_same] at hj
        cases hj
      · rw [Function.update_noteq hji] at hj
        have hlj := i1 j (Or.inr hj)
        rw [hlj] at h2
        injection h2 with h
        exact absurd h hji
    · intro _
      refine ⟨i, ?_⟩
      rw [Function.update_same]
    · intro a b ha hb
      by_cases hai : a = i
      · by_cases hbi : b = i
        · rw [hai, hbi]
        · rw [Function.update_noteq hbi] at hb
          exact absurd hb (i8 hdl0 b)
      · rw [Function.update_noteq hai] at ha
        exact absurd ha (i8 hdl0 a)
    · intro hd
      omega

/-- Every reachable state satisfies the invariant. -/
theorem Inv_reachable (n : Nat) (s : CState n) (h : Reachable n s) : Inv s := by
  induction h with
  | refl => exact Inv_init n
  | tail _ hstep ih => exact Inv_step ih hstep

/-- C2: in every complete interleaved execution of concurrent
`prepare_for_execution` calls on the same never-yet-materialized artifact —
any reachable state in which every thread has returned — exactly one
download+unzip ran to completion, performed by exactly one thread; every other
thread ended in the branch that reuses the already-materialized directory. -/
theorem prepare_for_execution_single_flight (n : Nat) (hn : 0 < n) (s : CState n)
    (hreach : Reachable n s) (hdone : ∀ i, ∃ b, s.thread i = TState.finished b) :
    s.downloads = 1 ∧ (∃! i, s.thread i = TState.finished true) ∧
    ∀ j, s.thread j ≠ TState.finished true → s.thread j = TState.finished false := by
  obtain ⟨i1, i2, i3, i4, i5, i6, i7, i8⟩ := Inv_reachable n s hreach
  have hnodl : ¬∃ i, s.thread i = TState.downloading := by
    rintro ⟨i, hi⟩
    obtain ⟨b, hb⟩ := hdone i
    rw [hi] at hb
    cases hb
  have hone : s.downloads = 1 := by
    obtain ⟨i0⟩ := Fin.pos_iff_nonempty.mp hn
    obtain ⟨b, hb⟩ := hdone i0
    cases b with
    | true =>
      rcases Nat.le_one_iff_eq_zero_or_eq_one.mp i2 with h0 | h1
      · exact absurd hb (i8 h0 i0)
      · exact h1
    | false =>
      rcases i3.mp (i4 ⟨i0, hb⟩) with h | h
      · exact h
      · exact absurd h hnodl
  refine ⟨hone, ?_, ?_⟩
  · obtain ⟨iw, hiw⟩ := i6 hone
    exact ⟨iw, hiw, fun j hj => i7 j iw hj hiw⟩
  · intro j hj
    obtain ⟨b, hb⟩ := hdone j
    cases b with
    | true => exact absurd hb hj
    | false => exact hb

/-- The four-step schedule of a single thread, used by the C2 witness. -/
def oneThreadS1 : CState 1 :=
  ⟨Function.update (initState 1).thread 0 TState.locked, some 0,
   (initState 1).dirPresent, (initState 1).downloads⟩

/-- Second intermediate state of the single-thread schedule. -/
def oneThreadS2 : CState 1 :=
  ⟨Function.update oneThreadS1.thread 0 TState.downloading, oneThreadS1.lockHolder,
   true, oneThreadS1.downloads⟩

/-- Final state of the single-thread schedule. -/
def oneThreadS3 : CState 1 :=
  ⟨Function.update oneThreadS2.thread 0 (TState.finished true), none,
   oneThreadS2.dirPresent, oneThreadS2.downloads + 1⟩

/-- Witness for C2 at a concrete input: one thread acquires, finds the
directory absent, downloads and finishes. -/
theorem prepare_for_execution_single_flight_witness :
    oneThreadS3.downloads = 1 ∧ ∃! i : Fin 1, oneThreadS3.thread i = TState.finished true := by
  have hreach : Reachable 1 oneThreadS3 := by
    have st1 : Step (initState 1) oneThreadS1 :=
      Step.acquire (initState 1) 0 rfl rfl
    have st2 : Step oneThreadS1 oneThreadS2 :=
      Step.checkAbsent oneThreadS1 0 (by simp [oneThreadS1, Function.update_same]) rfl rfl
    have st3 : Step oneThreadS2 oneThreadS3 :=
      Step.finishDownload oneThreadS2 0 (by simp [oneThreadS2, Function.update_same]) rfl
    exact Relation.ReflTransGen.tail
      (Relation.ReflTransGen.tail (Relation.ReflTransGen.single st1) st2) st3
  have h := prepare_for_execution_single_flight 1 (by omega) oneThreadS3 hreach ?_
  · exact ⟨h.1, h.2.1⟩
  · intro i
    refine ⟨true, ?_⟩
    have hi : i = 0 := by omega
    rw [hi]
    simp [oneThreadS3, Function.update_same]

end LambdaModels
